import Mathlib

namespace AgentSwarm

/-!
Formal model of the AgentSwarm Arena engine.

This file gives a shallow embedding, in Lean, of the core economic logic of
the arena: agent balance/status updates (`src/agents/BaseAgent.ts`), the x402
payment handshake (`src/lib/x402-client.ts`), the arena engine's matching,
death-processing, redistribution and Gini computations
(`src/arena/engine.ts`), and the scam and cartel behaviors
(`src/agents/behaviors`).  JavaScript numbers are modelled as exact rationals
(`ℚ`); `Date.now()` reads are passed in as explicit parameters; `Math.random`
draws are passed in as explicit choices; the SHA-256 hex digest is an
uninterpreted function parameter.  Statuses keep the source's names
(`alive` / `critical` / `dead`); the specification calls these
`active` / `critical` / `exhausted`.
-/

/-- Agent status, from `src/lib/solana-data.ts`:
`type AgentStatus = 'alive' | 'critical' | 'dead'`.
The spec names these `active` / `critical` / `exhausted`. -/
inductive AgentStatus where
  | alive
  | critical
  | dead
deriving DecidableEq, Repr

/-- Pricing model of an agent strategy (`'aggressive' | 'balanced' | 'premium'`). -/
inductive PricingModel where
  | aggressive
  | balanced
  | premium
deriving DecidableEq, Repr

/-- The constant `SURVIVAL_THRESHOLD = 0.1` (BaseAgent.ts line 8).
The spec calls this the critical threshold. -/
def SURVIVAL_THRESHOLD : ℚ := 0.1

/-- The constant `CRITICAL_THRESHOLD = 0.01` (BaseAgent.ts line 9).
The spec calls this the exhausted threshold. -/
def CRITICAL_THRESHOLD : ℚ := 0.01

/-- The fields of `AgentState` (plus the strategy record) that the engine's
economic logic reads or writes.  `diedAt` is `none` until `markDead` runs. -/
structure Agent where
  id : String
  type : String
  balance : ℚ
  status : AgentStatus
  reputation : ℚ
  servicesCompleted : Nat
  earnings : ℚ
  expenses : ℚ
  diedAt : Option Nat
  pricingModel : PricingModel
  basePrice : ℚ
  minPrice : ℚ
  maxPrice : ℚ
  events : List String
deriving DecidableEq, Repr

/-- The status an agent's balance dictates: the body of
`BaseAgent.updateStatus` (BaseAgent.ts lines 118-126). -/
def statusOf (balance : ℚ) : AgentStatus :=
  if balance ≤ CRITICAL_THRESHOLD then .dead
  else if balance ≤ SURVIVAL_THRESHOLD then .critical
  else .alive

/-- Method `BaseAgent.updateStatus`: recompute `status` from `balance`. -/
def updateStatus (a : Agent) : Agent :=
  { a with status := statusOf a.balance }

/-- Method `BaseAgent.updateBalance(amount)` (BaseAgent.ts lines 111-116):
add `amount` to the balance, book it as earnings (if positive) or expenses,
then recompute the status. -/
def updateBalance (a : Agent) (amount : ℚ) : Agent :=
  updateStatus
    { a with
      balance := a.balance + amount
      earnings := if 0 < amount then a.earnings + amount else a.earnings
      expenses := if 0 < amount then a.expenses else a.expenses + |amount| }

/-- Method `BaseAgent.updateReputation(delta)` (BaseAgent.ts lines 356-358):
reputation is clamped to `[0, 100]`. -/
def updateReputation (a : Agent) (delta : ℚ) : Agent :=
  { a with reputation := max 0 (min 100 (a.reputation + delta)) }

/-- Method `BaseAgent.incrementServicesCompleted` (BaseAgent.ts lines 360-362). -/
def incrementServicesCompleted (a : Agent) : Agent :=
  { a with servicesCompleted := a.servicesCompleted + 1 }

/-- Method `BaseAgent.addEvent` (BaseAgent.ts lines 84-90): append an event and keep
only the last 100. -/
def addEvent (a : Agent) (e : String) : Agent :=
  let es := a.events ++ [e]
  { a with events := if 100 < es.length then es.drop (es.length - 100) else es }

/-- Method `BaseAgent.markDead` (BaseAgent.ts lines 368-371): set `diedAt` to the
current time and append a terminal event.  The balance and status fields are
not touched. -/
def markDead (a : Agent) (now : Nat) : Agent :=
  addEvent { a with diedAt := some now } "death"

/-- Method `BaseAgent.updateStrategy` restricted to the fields cartel formation
writes (`pricingModel` and `basePrice`). -/
def updateStrategyPremium (a : Agent) (price : ℚ) : Agent :=
  { a with pricingModel := .premium, basePrice := price }

/-! ## x402 payment protocol (`src/lib/x402-client.ts`)

The SHA-256 hex digest is modelled by an uninterpreted function parameter
`sha256hex : String → String`; `parseInt` on the decimal strings produced by
`createPaymentSignature` is modelled by `jsParseInt` (a failed parse makes
the time check false, as NaN comparisons do in JavaScript). -/

/-- The `authorization` object of a `PaymentSignature` payload.  All fields
are strings, as in the source (`from`/`to` get a trailing underscore because
`from` and `to` are Lean keywords). -/
structure PaymentAuthorization where
  from_ : String
  to_ : String
  value : String
  validAfter : String
  validBefore : String
  nonce : String
deriving DecidableEq, Repr

/-- The `payload` of a `PaymentSignature`. -/
structure SignaturePayload where
  signature : String
  authorization : PaymentAuthorization
deriving DecidableEq, Repr

/-- The `PaymentResponse` record produced by settlement.  The ISO timestamp
string is modelled by the millisecond clock value it prints. -/
structure PaymentResponse where
  transactionHash : String
  success : Bool
  timestamp : Nat
  payerAddress : String
deriving DecidableEq, Repr

/-- Numeric value of a list of decimal digit characters. -/
def digitsToNat (l : List Char) : Nat :=
  l.foldl (fun acc c => acc * 10 + (c.toNat - 48)) 0

/-- JavaScript `parseInt(s)` (radix 10): parse an optional sign and the
longest prefix of decimal digits; `none` models `NaN` (no digits). -/
def jsParseInt (s : String) : Option Int :=
  match s.data with
  | '-' :: rest =>
    let ds := rest.takeWhile Char.isDigit
    if ds.isEmpty then none else some (-(digitsToNat ds : Int))
  | l =>
    let ds := l.takeWhile Char.isDigit
    if ds.isEmpty then none else some (digitsToNat ds)

/-- The string signed and verified by the protocol:
`` `${from}:${to}:${value}:${nonce}` `` (x402-client.ts lines 147 and 175). -/
def payloadDigestInput (auth : PaymentAuthorization) : String :=
  auth.from_ ++ ":" ++ auth.to_ ++ ":" ++ auth.value ++ ":" ++ auth.nonce

/-- Method `X402Client.createPaymentSignature` (x402-client.ts lines 127-163),
with the `Date.now()` second clock and the random nonce passed in.
`lamports = Math.floor(amount * 1_000_000_000).toString()`. -/
def createPaymentSignature (sha256hex : String → String) (fromAgentId toAgentId : String)
    (amount : ℚ) (nowSec : Int) (nonce : String) : SignaturePayload :=
  let lamports := toString ⌊amount * 1000000000⌋
  let authorization : PaymentAuthorization :=
    { from_ := fromAgentId
      to_ := toAgentId
      value := lamports
      validAfter := toString nowSec
      validBefore := toString (nowSec + 30)
      nonce := nonce }
  { signature := sha256hex (payloadDigestInput authorization)
    authorization := authorization }

/-- Method `X402Client.verifyAndSettle` (x402-client.ts lines 169-207): recompute the
digest over from/to/value/nonce, compare it with the supplied signature, check
`validAfter ≤ now ≤ validBefore` on the whole-second clock, and produce the
settlement record (success flag, transaction-hash reference, timestamp).
Returns the pair `(valid, raw response)`. -/
def verifyAndSettle (sha256hex : String → String) (ps : SignaturePayload)
    (nowSec : Int) (nowMs : Nat) : Bool × PaymentResponse :=
  let auth := ps.authorization
  let expectedSig := sha256hex (payloadDigestInput auth)
  let valid := expectedSig == ps.signature
  let timeValid :=
    match jsParseInt auth.validAfter, jsParseInt auth.validBefore with
    | some va, some vb => decide (va ≤ nowSec) && decide (nowSec ≤ vb)
    | _, _ => false
  let isValid := valid && timeValid
  let txHash := (sha256hex (ps.signature ++ ":" ++ toString nowMs)).take 64
  (isValid,
    { transactionHash := txHash
      success := isValid
      timestamp := nowMs
      payerAddress := auth.from_ })

/-- Status of an `X402Payment` record. -/
inductive PaymentStatus where
  | pending
  | completed
  | failed
deriving DecidableEq, Repr

/-- The `X402Payment` record built by `executePayment` (the protocol-header
copies are kept abstract; the settled fields are the ones the engine reads). -/
structure X402Payment where
  from_ : String
  to_ : String
  amount : ℚ
  serviceType : String
  status : PaymentStatus
  response : PaymentResponse
deriving DecidableEq, Repr

/-- The mutable counters of the `X402Client` singleton. -/
structure X402State where
  totalPayments : Nat
  totalVolume : ℚ
deriving DecidableEq, Repr

/-- Method `X402Client.executePayment` (x402-client.ts lines 213-256).  The two
balance-update callbacks are modelled by the returned list of invocations
`(label, delta)`: on a valid settlement the list is
`[(from, -amount), (to, amount)]`, on a failed settlement it is empty.
`tSign` is the second clock when the client signs, `tSettle` the second clock
at settlement (in the source both are `Date.now()/1000` reads). -/
def executePayment (sha256hex : String → String) (fromAgentId toAgentId : String)
    (amount : ℚ) (serviceType : String) (st : X402State)
    (tSign tSettle : Int) (nowMs : Nat) (nonce : String) :
    X402Payment × X402State × List (String × ℚ) :=
  let signed := createPaymentSignature sha256hex fromAgentId toAgentId amount tSign nonce
  let settlement := verifyAndSettle sha256hex signed tSettle nowMs
  let payment : X402Payment :=
    { from_ := fromAgentId
      to_ := toAgentId
      amount := amount
      serviceType := serviceType
      status := if settlement.1 then .completed else .failed
      response := settlement.2 }
  if settlement.1 then
    (payment,
      { totalPayments := st.totalPayments + 1, totalVolume := st.totalVolume + amount },
      [(fromAgentId, -amount), (toAgentId, amount)])
  else
    (payment, st, [])

/-! ## Gini coefficient (`ArenaEngine.calculateGini`, engine.ts lines 461-476) -/

/-- The numerator loop of `calculateGini`:
`for (i = 0; i < n; i++) numerator += (2 * (i + 1) - n - 1) * sorted[i]`,
with the running index `i` and the length `n` carried as rationals. -/
def giniNumerator (n : ℚ) : List ℚ → ℚ → ℚ
  | [], _ => 0
  | x :: t, i => (2 * (i + 1) - n - 1) * x + giniNumerator n t (i + 1)

/-- Method `ArenaEngine.calculateGini(values)`: 0 on an empty list, otherwise sort
ascending and divide the numerator loop by `n * sum`, returning 0 when the
sum is 0. -/
def calculateGini (values : List ℚ) : ℚ :=
  if values.length = 0 then 0
  else
    let sorted := List.insertionSort (· ≤ ·) values
    let n : ℚ := sorted.length
    let sum := sorted.sum
    if sum = 0 then 0
    else giniNumerator n sorted 0 / (n * sum)

/-! ## Balance redistribution (`ArenaEngine.redistributeBalance`,
engine.ts lines 280-297)

The registry is the engine's insertion-ordered agent map, modelled as a list;
JavaScript object references are modelled by list positions.  The
`Math.floor(Math.random() * aliveAgents.length)` draw — always an ordinal
below the survivor count — is passed in as `rand`, reduced modulo the
survivor count. -/

/-- The filter of `redistributeBalance`:
`a.getState().status === 'alive' && a.getState().id !== deadAgentId`. -/
def isSurvivor (deadAgentId : String) (a : Agent) : Bool :=
  a.status == .alive && a.id != deadAgentId

/-- Positions (in the full registry, starting at `i`) of the agents passing
the survivor filter, in registry order. -/
def survivorIdxs (deadAgentId : String) : List Agent → Nat → List Nat
  | [], _ => []
  | a :: t, i =>
    if isSurvivor deadAgentId a then i :: survivorIdxs deadAgentId t (i + 1)
    else survivorIdxs deadAgentId t (i + 1)

/-- The two mutation passes of `redistributeBalance` over the registry:
`randomAgent.updateBalance(halfBalance)` on the agent at position `j`,
then `aliveAgents.forEach(agent => agent.updateBalance(perAgent))` on every
agent passing the (pre-computed) survivor filter.  `i` is the position of
the head of `l` in the full registry. -/
def redistApply (deadAgentId : String) (halfBalance perAgent : ℚ) (j : Nat) :
    List Agent → Nat → List Agent
  | [], _ => []
  | a :: t, i =>
    let a1 := if i = j then updateBalance a halfBalance else a
    let a2 := if isSurvivor deadAgentId a then updateBalance a1 perAgent else a1
    a2 :: redistApply deadAgentId halfBalance perAgent j t (i + 1)

/-- Method `ArenaEngine.redistributeBalance(deadAgentId, balance)`: nothing happens
when `balance ≤ 0` or no survivor exists; otherwise the survivor chosen by
`rand` receives half the balance and every survivor receives an equal share
of the other half. -/
def redistributeBalance (agents : List Agent) (deadAgentId : String)
    (balance : ℚ) (rand : Nat) : List Agent :=
  if balance ≤ 0 then agents
  else
    let aliveIdxs := survivorIdxs deadAgentId agents 0
    if aliveIdxs.isEmpty then agents
    else
      let k : ℚ := aliveIdxs.length
      let halfBalance := balance / 2
      let perAgent := halfBalance / k
      let j := aliveIdxs.getD (rand % aliveIdxs.length) 0
      redistApply deadAgentId halfBalance perAgent j agents 0

/-- Total balance held by a registry. -/
def balanceSum (l : List Agent) : ℚ :=
  (l.map Agent.balance).sum

/-- A survivor agent used by concrete witnesses: alive with balance 1. -/
def wAlive (id : String) : Agent :=
  { id := id, type := "trading", balance := 1, status := .alive,
    reputation := 50, servicesCompleted := 0, earnings := 0, expenses := 0,
    diedAt := none, pricingModel := .balanced, basePrice := 0, minPrice := 0,
    maxPrice := 0, events := [] }

/-- A dead agent used by concrete witnesses. -/
def wDead : Agent :=
  { id := "d", type := "trading", balance := 1, status := .dead,
    reputation := 50, servicesCompleted := 0, earnings := 0, expenses := 0,
    diedAt := none, pricingModel := .balanced, basePrice := 0, minPrice := 0,
    maxPrice := 0, events := [] }

/-- A concrete registry: one dead agent and four alive survivors. -/
def wRegistry : List Agent :=
  [wDead, wAlive "s1", wAlive "s2", wAlive "s3", wAlive "s4"]

/-! ## Death processing (`ArenaEngine.processDeaths`, engine.ts lines 251-277)

The scan walks the registry in insertion order; for every agent whose status
is `dead` (spec: exhausted) and whose `diedAt` is unset it calls `markDead`
and then redistributes the updated state's balance.  One random draw is
consumed from the `rand` stream per finalized agent. -/

/-- The per-agent scan of `processDeaths`, walking positions `i`, `i+1`, ...
with explicit fuel (the registry length never changes during the scan). -/
def processDeathsFrom (t : Nat) : Nat → Nat → List Agent → List Nat → List Agent
  | 0, _, agents, _ => agents
  | fuel + 1, i, agents, rand =>
    match agents.get? i with
    | none => agents
    | some a =>
      if a.status = .dead ∧ a.diedAt = none then
        let agents1 := agents.set i (markDead a t)
        let agents2 :=
          redistributeBalance agents1 a.id (markDead a t).balance (rand.headD 0)
        processDeathsFrom t fuel (i + 1) agents2 rand.tail
      else processDeathsFrom t fuel (i + 1) agents rand

/-- Method `ArenaEngine.processDeaths`: scan the whole registry once. -/
def processDeaths (agents : List Agent) (rand : List Nat) (t : Nat) : List Agent :=
  processDeathsFrom t agents.length 0 agents rand

/-- Spec invariant: every agent's stored status is the threshold function of
its stored balance. -/
def StatusConsistent (l : List Agent) : Prop :=
  ∀ a ∈ l, a.status = statusOf a.balance

/-- Position `i` of the registry does not hold a dead agent with an unset
finalize time. -/
def NotDeadUnsetAt (l : List Agent) (i : Nat) : Prop :=
  ∀ a, l.get? i = some a → ¬(a.status = .dead ∧ a.diedAt = none)

/-- A dead agent used by the consistent concrete registry: balance 0.005,
below the 0.01 threshold, with its finalize time unset. -/
def wDead2 : Agent :=
  { id := "d", type := "trading", balance := 0.005, status := .dead,
    reputation := 50, servicesCompleted := 0, earnings := 0, expenses := 0,
    diedAt := none, pricingModel := .balanced, basePrice := 0, minPrice := 0,
    maxPrice := 0, events := [] }

/-- A status-consistent concrete registry: one dead agent awaiting
finalization and two alive survivors. -/
def wRegistry2 : List Agent :=
  [wDead2, wAlive "s1", wAlive "s2"]

/-! ## Reasoning-provider circuit breaker (`BaseAgent.ts` lines 11-30 and
254-287)

The module-level state is `aiFailCount` (consecutive failures), `DEMO_MODE`
(set at startup when no provider is configured, and set by the breaker), and
the startup constant `USE_KIMI`.  `makeDecision`'s provider branch is guarded
by `USE_KIMI && this.kimi` — `this.kimi` is non-null exactly when `USE_KIMI`
was true at construction — so the guard is `useKimi` alone and never reads
`DEMO_MODE`.  (The Anthropic branch has no breaker at all; the Kimi branch is
the one the breaker lives in.)  A provider call outcome is `some text` on
success and `none` on a throw/timeout. -/

/-- The process-wide provider globals. -/
structure AIGlobals where
  useKimi : Bool
  demoMode : Bool
  aiFailCount : Nat
deriving DecidableEq, Repr

/-- The constant `AI_FAIL_THRESHOLD = 3` (BaseAgent.ts line 30). -/
def AI_FAIL_THRESHOLD : Nat := 3

/-- One `makeDecision` call's effect on the provider globals (Kimi branch,
BaseAgent.ts lines 258-287): on success the failure counter resets; on
failure it increments and, at the threshold, sets `DEMO_MODE`; the returned
flag records whether `kimi.chat` was invoked. -/
def makeDecisionStep (g : AIGlobals) (providerOutcome : Option String) :
    AIGlobals × Bool :=
  if g.useKimi then
    match providerOutcome with
    | some _ => ({ g with aiFailCount := 0 }, true)
    | none =>
      ({ g with
          aiFailCount := g.aiFailCount + 1,
          demoMode :=
            if AI_FAIL_THRESHOLD ≤ g.aiFailCount + 1 then true else g.demoMode },
        true)
  else (g, false)

/-- Shorthand for a failing provider call. -/
def stepFail (g : AIGlobals) : AIGlobals :=
  (makeDecisionStep g none).1

/-- Only `executeService`'s cosmetic narrative call is the only provider call
guarded by `DEMO_MODE` (`if (!DEMO_MODE)`, BaseAgent.ts line 226). -/
def executeServiceCallsProvider (g : AIGlobals) : Bool :=
  !g.demoMode

/-! ## Cartel formation (`CartelBehavior.formCartel`, CartelBehavior.ts lines
35-146, and `ArenaEngine.attemptCartelFormation`, engine.ts lines 300-326)

Each queried agent's reasoning outcome is passed in as a `CartelResponse`:
`parsed join mult` when the reply contained JSON (with the
`proposed_price_multiplier` field, `none` when absent), `noJson` when the
reply had no JSON (no negotiation entry is recorded), and `failed randMult`
when the call threw (the heuristic entry is recorded, with the randomized
multiplier draw passed in).  Registry agent ids are unique (the engine keys
its `Map` by id), so the source's `agents.find(id)`-and-update loop over the
joiners is modelled as a map over the registry guarded by id membership. -/

/-- One recorded negotiation entry. -/
structure Negotiation where
  agentId : String
  join : Bool
  proposedMultiplier : ℚ
deriving DecidableEq, Repr

/-- Reasoning outcome for one queried agent. -/
inductive CartelResponse where
  | parsed (join : Bool) (mult : Option ℚ)
  | noJson
  | failed (randMult : ℚ)
deriving DecidableEq, Repr

/-- JavaScript `x || dflt` on the multiplier field: `undefined` and `0` (and
`NaN`) fall back to the default. -/
def jsOrDefault (v : Option ℚ) (dflt : ℚ) : ℚ :=
  match v with
  | some x => if x = 0 then dflt else x
  | none => dflt

/-- The clamp `Math.max(1.0, Math.min(2.0, m))` (CartelBehavior.ts line 79). -/
def clampMultiplier (m : ℚ) : ℚ := max 1 (min 2 m)

/-- The negotiation loop (CartelBehavior.ts lines 59-111): one response per
queried agent; a parsed reply is clamped, a JSON-less reply records nothing,
a thrown call falls back to the heuristic
`reputation > 60 && balance > 0.3`. -/
def negotiate : List Agent → List CartelResponse → List Negotiation
  | [], _ => []
  | _, [] => []
  | a :: agents, r :: rs =>
    match r with
    | .parsed join mult =>
      { agentId := a.id, join := join,
        proposedMultiplier := clampMultiplier (jsOrDefault mult 1.3) } ::
        negotiate agents rs
    | .noJson => negotiate agents rs
    | .failed randMult =>
      { agentId := a.id,
        join := decide (60 < a.reputation) && decide ((0.3 : ℚ) < a.balance),
        proposedMultiplier :=
          if decide (60 < a.reputation) && decide ((0.3 : ℚ) < a.balance) then randMult
          else 1.0 } :: negotiate agents rs

/-- The eligibility filter of `formCartel`: same category, alive, reputation
above 50. -/
def cartelEligible (agents : List Agent) (serviceType : String) : List Agent :=
  agents.filter fun a =>
    a.type == serviceType && a.status == .alive && decide (50 < a.reputation)

/-- Method `CartelBehavior.formCartel(agents, serviceType, marketPrice)`: needs at
least 3 eligible agents, queries the first 6, forms only with at least 3
joiners; the fixed price is the mean of the joiners' clamped multipliers
times the `marketPrice` argument, and every joiner is switched to premium
pricing at that price.  Returns the member ids and the updated registry. -/
def formCartel (agents : List Agent) (serviceType : String) (marketPrice : ℚ)
    (responses : List CartelResponse) : List String × List Agent :=
  let agentsOfType := cartelEligible agents serviceType
  if agentsOfType.length < 3 then ([], agents)
  else
    let negotiations := negotiate (agentsOfType.take 6) responses
    let joiners := negotiations.filter (·.join)
    if joiners.length < 3 then ([], agents)
    else
      let avgMultiplier :=
        (joiners.map (·.proposedMultiplier)).sum / (joiners.length : ℚ)
      let cartelPrice := marketPrice * avgMultiplier
      let members := joiners.map (·.agentId)
      (members,
        agents.map fun a =>
          if members.contains a.id then updateStrategyPremium a cartelPrice else a)

/-- The market-price argument the engine passes to `formCartel`
(engine.ts lines 305-315): the average of the recent (≤ 10) transaction
amounts for the category — defaulting to 0.08 with no recent transactions —
multiplied by 1.3. -/
def engineCartelPrice (recentAmounts : List ℚ) : ℚ :=
  let avgPrice :=
    if 0 < recentAmounts.length then recentAmounts.sum / (recentAmounts.length : ℚ)
    else 0.08
  avgPrice * 1.3

/-- Engine method `attemptCartelFormation`'s per-category step: `formCartel` at the
engine-computed price. -/
def engineFormCartel (agents : List Agent) (serviceType : String)
    (recentAmounts : List ℚ) (responses : List CartelResponse) :
    List String × List Agent :=
  formCartel agents serviceType (engineCartelPrice recentAmounts) responses

/-- Eligible cartel agents used by concrete scenarios: same category, alive,
with the given reputation. -/
def wCartelAgent (id : String) (rep : ℚ) : Agent :=
  { id := id, type := "trading", balance := 1, status := .alive,
    reputation := rep, servicesCompleted := 0, earnings := 0, expenses := 0,
    diedAt := none, pricingModel := .balanced, basePrice := 0, minPrice := 0,
    maxPrice := 0, events := [] }

/-- Three same-category agents with reputations 70/75/80. -/
def wCartelAgents : List Agent :=
  [wCartelAgent "c1" 70, wCartelAgent "c2" 75, wCartelAgent "c3" 80]

/-- All three agree to join, proposing multipliers 1.2/1.3/1.4. -/
def wCartelResponses : List CartelResponse :=
  [.parsed true (some 1.2), .parsed true (some 1.3), .parsed true (some 1.4)]

/-! ## Request matching and settlement (`ArenaEngine.matchRequests`,
engine.ts lines 161-248; `BaseAgent.executeService`, BaseAgent.ts lines
213-252; `ScammingBehavior.executeScam`, ScammingBehavior.ts lines 30-51)

`matchAccepted` models the accepted branch of `matchRequests` for one
request: the (scam or honest) execution, the request-status updates, the
x402 settlement with the engine's two no-op balance callbacks, the ledger
`Transaction` push, and the emitted events.  The throw/catch path (which
marks the request failed on an exception) is not taken by a failed
settlement: `executePayment` returns normally either way. -/

/-- Status of a `ServiceRequest` (the spec's WorkItem). -/
inductive ReqStatus where
  | pending
  | in_progress
  | completed
  | failed
deriving DecidableEq, Repr

/-- The spec's WorkItem (`ServiceRequest` in `src/types/agent`). -/
structure ServiceRequest where
  id : String
  clientId : String
  agentId : String
  serviceType : String
  payment : ℚ
  status : ReqStatus
deriving DecidableEq, Repr

/-- The ledger record pushed by `matchRequests` (the spec's LedgerEntry). -/
structure Transaction where
  from_ : String
  to_ : String
  amount : ℚ
  serviceType : String
  timestamp : Nat
  x402TxHash : String
deriving DecidableEq, Repr

/-- The engine state the accepted-request branch mutates. -/
structure EngineLedgerState where
  transactions : List Transaction
  events : List String
  x402 : X402State
deriving DecidableEq, Repr

/-- Method `BaseAgent.executeService`: count the service, credit the payment,
gain one reputation point, append a service event (the AI narrative is
cosmetic and does not touch the state). -/
def executeService (a : Agent) (payment : ℚ) : Agent :=
  addEvent (updateReputation (updateBalance (incrementServicesCompleted a) payment) 1)
    "service"

/-- Method `ScammingBehavior.executeScam`: credit the full payment, apply the fixed
-20 reputation penalty, count the work as completed.  No agent event and no
ledger entry is appended here. -/
def executeScam (a : Agent) (payment : ℚ) : Agent :=
  incrementServicesCompleted (updateReputation (updateBalance a payment) (-20))

/-- The accepted branch of `matchRequests` for one request: execute (scam or
honest), mark the request `completed`, settle through x402 (the engine
passes two no-op balance callbacks), push the ledger `Transaction`, and emit
`scam-detected` (when scamming) and `transaction`.  Returns the new engine
state, the mutated agent, the mutated request, and the x402 payment
record. -/
def matchAccepted (eng : EngineLedgerState) (request : ServiceRequest) (agent : Agent)
    (willScam : Bool) (sha256hex : String → String) (tSign tSettle : Int)
    (nowMs : Nat) (nonce : String) (txTime : Nat) :
    EngineLedgerState × Agent × ServiceRequest × X402Payment :=
  let agent' :=
    if willScam then executeScam agent request.payment
    else executeService agent request.payment
  let events1 := if willScam then eng.events ++ ["scam-detected"] else eng.events
  let req1 : ServiceRequest := { request with agentId := agent.id, status := .completed }
  let pres := executePayment sha256hex request.clientId agent.id request.payment
    request.serviceType eng.x402 tSign tSettle nowMs nonce
  let tx : Transaction :=
    { from_ := request.clientId, to_ := agent.id, amount := request.payment,
      serviceType := request.serviceType, timestamp := txTime,
      x402TxHash := pres.1.response.transactionHash }
  ({ transactions := eng.transactions ++ [tx],
     events := events1 ++ ["transaction"],
     x402 := pres.2.1 },
    agent', req1, pres.1)

/-! ## Lemmas and theorems -/

/-- C3.  After every operation on an actor, its status equals the pure
threshold function of its balance: `updateBalance` always recomputes the
status as `statusOf` of the new balance (exhausted/`dead` when
balance ≤ 0.01, critical when 0.01 < balance ≤ 0.1, active/`alive`
otherwise), and none of the other mutators (`updateReputation`,
`incrementServicesCompleted`, `markDead`, `addEvent`) writes the status or
the balance.  In particular balance 0.10 yields status critical, and a
further debit of 0.095 (to balance 0.005) yields status exhausted/`dead`. -/
theorem status_is_threshold_function_of_balance :
    (∀ a amount, (updateBalance a amount).status = statusOf (a.balance + amount)) ∧
    (∀ b, statusOf b = (if b ≤ CRITICAL_THRESHOLD then AgentStatus.dead
        else if b ≤ SURVIVAL_THRESHOLD then AgentStatus.critical else AgentStatus.alive)) ∧
    (∀ a d, (updateReputation a d).status = a.status ∧ (updateReputation a d).balance = a.balance) ∧
    (∀ a, (incrementServicesCompleted a).status = a.status ∧
        (incrementServicesCompleted a).balance = a.balance) ∧
    (∀ a t, (markDead a t).status = a.status ∧ (markDead a t).balance = a.balance) ∧
    (∀ a e, (addEvent a e).status = a.status ∧ (addEvent a e).balance = a.balance) ∧
    (statusOf 0.10 = .critical) ∧
    (∀ a, a.balance = 0.10 → (updateBalance a (-0.095)).status = .dead ∧
        (updateBalance a (-0.095)).balance = 0.005) := by
  refine ⟨fun a amount => rfl, fun b => rfl, fun a d => ⟨rfl, rfl⟩,
    fun a => ⟨rfl, rfl⟩, fun a t => ⟨rfl, rfl⟩, fun a e => ⟨rfl, rfl⟩, ?_, ?_⟩
  · simp only [statusOf]
    norm_num [CRITICAL_THRESHOLD, SURVIVAL_THRESHOLD]
  intro a ha
  constructor
  · simp only [updateBalance, updateStatus, statusOf, ha]
    norm_num [CRITICAL_THRESHOLD]
  · simp only [updateBalance, updateStatus, ha]
    norm_num

/-- Concrete instantiation of the hypothesis-bearing clause of
`status_is_threshold_function_of_balance` at balance 0.10. -/
theorem status_is_threshold_function_of_balance_witness :
    (updateBalance
      { id := "a", type := "trading", balance := 0.10, status := .critical,
        reputation := 50, servicesCompleted := 0, earnings := 0, expenses := 0,
        diedAt := none, pricingModel := .balanced, basePrice := 0.05,
        minPrice := 0.01, maxPrice := 0.2, events := [] } (-0.095)).status =
      AgentStatus.dead :=
  (status_is_threshold_function_of_balance.2.2.2.2.2.2.2 _ rfl).1

/-- C1.  Settlement reports success iff the SHA-256 digest recomputed over
the authorization's from, to, value and nonce fields equals the supplied
signature AND the current whole-second time satisfies
`validAfter ≤ now ≤ validBefore`; the produced settlement record carries that
success flag, a settlement reference (the transaction hash) and a
timestamp. -/
theorem verifyAndSettle_success_iff (sha256hex : String → String)
    (ps : SignaturePayload) (nowSec : Int) (nowMs : Nat) (va vb : Int)
    (hva : jsParseInt ps.authorization.validAfter = some va)
    (hvb : jsParseInt ps.authorization.validBefore = some vb) :
    ((verifyAndSettle sha256hex ps nowSec nowMs).1 = true ↔
      (sha256hex (payloadDigestInput ps.authorization) = ps.signature ∧
        va ≤ nowSec ∧ nowSec ≤ vb)) ∧
    (verifyAndSettle sha256hex ps nowSec nowMs).2.success =
      (verifyAndSettle sha256hex ps nowSec nowMs).1 ∧
    (verifyAndSettle sha256hex ps nowSec nowMs).2.transactionHash =
      (sha256hex (ps.signature ++ ":" ++ toString nowMs)).take 64 ∧
    (verifyAndSettle sha256hex ps nowSec nowMs).2.timestamp = nowMs := by
  refine ⟨?_, rfl, by simp [verifyAndSettle], rfl⟩
  simp only [verifyAndSettle, hva, hvb, Bool.and_eq_true, beq_iff_eq,
    decide_eq_true_eq, and_assoc]

/-- Concrete instantiation of `verifyAndSettle_success_iff`: the identity
digest, a matching signature and `now = 20` inside the window `[10, 40]`
settle successfully. -/
theorem verifyAndSettle_success_iff_witness :
    ((verifyAndSettle id
        { signature := "A:B:5:n"
          authorization :=
            { from_ := "A", to_ := "B", value := "5",
              validAfter := "10", validBefore := "40", nonce := "n" } }
        20 999).1 = true ↔
      (id ("A" ++ ":" ++ "B" ++ ":" ++ "5" ++ ":" ++ "n") = "A:B:5:n" ∧
        (10 : Int) ≤ 20 ∧ (20 : Int) ≤ 40)) ∧
    (verifyAndSettle id
        { signature := "A:B:5:n"
          authorization :=
            { from_ := "A", to_ := "B", value := "5",
              validAfter := "10", validBefore := "40", nonce := "n" } }
        20 999).1 = true := by
  have h := verifyAndSettle_success_iff id
    { signature := "A:B:5:n"
      authorization :=
        { from_ := "A", to_ := "B", value := "5",
          validAfter := "10", validBefore := "40", nonce := "n" } }
    20 999 10 40 (by decide) (by decide)
  exact ⟨h.1, h.1.mpr ⟨by decide, by decide, by decide⟩⟩

/-- Starting the numerator loop one index later adds `2 * sum` (every
coefficient grows by 2). -/
theorem giniNumerator_shift (l : List ℚ) (n i : ℚ) :
    giniNumerator n l (i + 1) = giniNumerator n l i + 2 * l.sum := by
  induction l generalizing i with
  | nil => simp [giniNumerator]
  | cons x t ih =>
    simp only [giniNumerator, ih (i + 1), List.sum_cons]
    ring

/-- Growing `n` by one subtracts `sum` from the numerator loop. -/
theorem giniNumerator_pred (l : List ℚ) (n i : ℚ) :
    giniNumerator (n + 1) l i = giniNumerator n l i - l.sum := by
  induction l generalizing i with
  | nil => simp [giniNumerator]
  | cons x t ih =>
    simp only [giniNumerator, ih (i + 1), List.sum_cons]
    ring

/-- Recurrence for the full numerator on a cons cell. -/
theorem giniNumerator_cons (x : ℚ) (t : List ℚ) :
    giniNumerator ((t.length : ℚ) + 1) (x :: t) 0 =
      giniNumerator (t.length : ℚ) t 0 + t.sum - (t.length : ℚ) * x := by
  have h1 := giniNumerator_shift t ((t.length : ℚ) + 1) 0
  have h2 := giniNumerator_pred t (t.length : ℚ) 0
  simp only [giniNumerator, zero_add] at h1 ⊢
  rw [h1, h2]
  ring

/-- A list all of whose elements dominate `x` has sum at least `length * x`. -/
theorem length_mul_le_sum (t : List ℚ) (x : ℚ) (h : ∀ y ∈ t, x ≤ y) :
    (t.length : ℚ) * x ≤ t.sum := by
  induction t with
  | nil => simp
  | cons y t ih =>
    have hy := h y (List.mem_cons_self y t)
    have ht := ih fun z hz => h z (List.mem_cons_of_mem y hz)
    simp only [List.length_cons, List.sum_cons]
    push_cast
    linarith

/-- On an ascending list the numerator is non-negative. -/
theorem giniNumerator_nonneg (l : List ℚ) (hs : l.Sorted (· ≤ ·)) :
    0 ≤ giniNumerator (l.length : ℚ) l 0 := by
  induction l with
  | nil => simp [giniNumerator]
  | cons x t ih =>
    rw [List.sorted_cons] at hs
    have hsum := length_mul_le_sum t x hs.1
    have hrec := giniNumerator_cons x t
    have : ((x :: t).length : ℚ) = (t.length : ℚ) + 1 := by push_cast [List.length_cons]; ring
    rw [this, hrec]
    have := ih hs.2
    linarith

/-- On an ascending list of non-negative values the numerator is at most
`(n - 1) * sum`. -/
theorem giniNumerator_le (l : List ℚ) (hs : l.Sorted (· ≤ ·))
    (hpos : ∀ y ∈ l, 0 ≤ y) :
    giniNumerator (l.length : ℚ) l 0 ≤ ((l.length : ℚ) - 1) * l.sum := by
  induction l with
  | nil => simp [giniNumerator]
  | cons x t ih =>
    rw [List.sorted_cons] at hs
    have hx : 0 ≤ x := hpos x (List.mem_cons_self x t)
    have ht : ∀ y ∈ t, 0 ≤ y := fun z hz => hpos z (List.mem_cons_of_mem x hz)
    have htsum : 0 ≤ t.sum := List.sum_nonneg ht
    have hmx : 0 ≤ (t.length : ℚ) * x := mul_nonneg (by positivity) hx
    have hlen : ((x :: t).length : ℚ) = (t.length : ℚ) + 1 := by
      push_cast [List.length_cons]; ring
    rw [hlen, giniNumerator_cons, List.sum_cons]
    have := ih hs.2 ht
    nlinarith [this, hmx, htsum, hx]

/-- On an all-equal list the numerator vanishes (the coefficients sum to 0). -/
theorem giniNumerator_const (l : List ℚ) (c : ℚ) (h : ∀ y ∈ l, y = c) :
    giniNumerator (l.length : ℚ) l 0 = 0 := by
  induction l with
  | nil => simp [giniNumerator]
  | cons x t ih =>
    have hx : x = c := h x (List.mem_cons_self x t)
    have ht : ∀ y ∈ t, y = c := fun z hz => h z (List.mem_cons_of_mem x hz)
    have hsum : t.sum = (t.length : ℚ) * c := by
      rw [List.sum_eq_card_nsmul t c ht, nsmul_eq_mul]
    have hlen : ((x :: t).length : ℚ) = (t.length : ℚ) + 1 := by
      push_cast [List.length_cons]; ring
    rw [hlen, giniNumerator_cons, hsum, hx, ih ht]
    ring

/-- C9.  `calculateGini` returns 0 on the empty list and on zero-sum input;
on a non-degenerate list it sorts ascending and returns
`Σ (2(i+1) - n - 1) * sorted[i] / (n * Σ)`; for non-negative balances the
result always lies in `[0, 1]`, and it is exactly 0 when all balances are
equal. -/
theorem calculateGini_spec :
    (calculateGini [] = 0) ∧
    (∀ l : List ℚ, l.sum = 0 → calculateGini l = 0) ∧
    (∀ l : List ℚ, l.length ≠ 0 → l.sum ≠ 0 →
      calculateGini l =
        giniNumerator (l.length : ℚ) (List.insertionSort (· ≤ ·) l) 0 /
          ((l.length : ℚ) * l.sum)) ∧
    (∀ l : List ℚ, (∀ x ∈ l, 0 ≤ x) → 0 ≤ calculateGini l ∧ calculateGini l ≤ 1) ∧
    (∀ (l : List ℚ) (c : ℚ), (∀ x ∈ l, x = c) → calculateGini l = 0) := by
  have hlen : ∀ l : List ℚ, (List.insertionSort (· ≤ ·) l).length = l.length :=
    fun l => (List.perm_insertionSort _ l).length_eq
  have hsum : ∀ l : List ℚ, (List.insertionSort (· ≤ ·) l).sum = l.sum :=
    fun l => (List.perm_insertionSort _ l).sum_eq
  have hmem : ∀ (l : List ℚ) (x : ℚ), x ∈ List.insertionSort (· ≤ ·) l ↔ x ∈ l :=
    fun l x => (List.perm_insertionSort _ l).mem_iff
  refine ⟨rfl, ?_, ?_, ?_, ?_⟩
  · intro l h
    simp only [calculateGini, hsum, h]
    split <;> simp
  · intro l hn hs
    simp only [calculateGini, hsum, hlen, if_neg hn, if_neg hs]
  · intro l hpos
    by_cases hn : l.length = 0
    · simp [calculateGini, hn]
    by_cases hs : l.sum = 0
    · constructor <;> simp only [calculateGini, hsum, hlen, if_neg hn, if_pos hs] <;> norm_num
    have hsorted : (List.insertionSort (· ≤ ·) l).Sorted (· ≤ ·) :=
      List.sorted_insertionSort _ l
    have hposs : ∀ y ∈ List.insertionSort (· ≤ ·) l, 0 ≤ y :=
      fun y hy => hpos y ((hmem l y).mp hy)
    have hsum0 : (0 : ℚ) ≤ l.sum := by
      rw [← hsum l]; exact List.sum_nonneg hposs
    have hsumpos : (0 : ℚ) < l.sum := lt_of_le_of_ne hsum0 (Ne.symm hs)
    have hnpos : (0 : ℚ) < (l.length : ℚ) := by
      exact_mod_cast Nat.pos_of_ne_zero hn
    have hnum0 : 0 ≤ giniNumerator ((l.length : ℚ)) (List.insertionSort (· ≤ ·) l) 0 := by
      have := giniNumerator_nonneg (List.insertionSort (· ≤ ·) l) hsorted
      rwa [hlen l] at this
    have hnumle : giniNumerator ((l.length : ℚ)) (List.insertionSort (· ≤ ·) l) 0 ≤
        (l.length : ℚ) * l.sum := by
      have := giniNumerator_le (List.insertionSort (· ≤ ·) l) hsorted hposs
      rw [hlen l, hsum l] at this
      nlinarith [this, hsum0]
    constructor
    · simp only [calculateGini, hsum, hlen, if_neg hn, if_neg hs]
      exact div_nonneg hnum0 (by positivity)
    · simp only [calculateGini, hsum, hlen, if_neg hn, if_neg hs]
      rw [div_le_one (by positivity)]
      exact hnumle
  · intro l c h
    by_cases hn : l.length = 0
    · simp [calculateGini, hn]
    by_cases hs : l.sum = 0
    · simp only [calculateGini, hsum, hlen, if_neg hn, if_pos hs]
    simp only [calculateGini, hsum, hlen, if_neg hn, if_neg hs]
    have hmemc : ∀ y ∈ List.insertionSort (· ≤ ·) l, y = c :=
      fun y hy => h y ((hmem l y).mp hy)
    have := giniNumerator_const (List.insertionSort (· ≤ ·) l) c hmemc
    rw [hlen l] at this
    rw [this, zero_div]

/-- Concrete instantiations of `calculateGini_spec`: the bounds at the
balances `[3, 0, 1]` and the all-equal case at `[2, 2, 2]`. -/
theorem calculateGini_spec_witness :
    (0 ≤ calculateGini [3, 0, 1] ∧ calculateGini [3, 0, 1] ≤ 1) ∧
    calculateGini [2, 2, 2] = 0 ∧ calculateGini [] = 0 ∧
    calculateGini [1, -1] = 0 := by
  refine ⟨calculateGini_spec.2.2.2.1 [3, 0, 1] ?_, calculateGini_spec.2.2.2.2 [2, 2, 2] 2 ?_,
    calculateGini_spec.1, calculateGini_spec.2.1 [1, -1] ?_⟩
  · intro x hx
    fin_cases hx <;> norm_num
  · intro x hx
    fin_cases hx <;> norm_num
  · norm_num

theorem updateBalance_balance (a : Agent) (x : ℚ) :
    (updateBalance a x).balance = a.balance + x := rfl

theorem updateBalance_id (a : Agent) (x : ℚ) : (updateBalance a x).id = a.id := rfl

theorem updateBalance_type (a : Agent) (x : ℚ) : (updateBalance a x).type = a.type := rfl

theorem updateBalance_diedAt (a : Agent) (x : ℚ) :
    (updateBalance a x).diedAt = a.diedAt := rfl

theorem updateBalance_status (a : Agent) (x : ℚ) :
    (updateBalance a x).status = statusOf (a.balance + x) := rfl

/-- Element-wise description of the two redistribution passes. -/
theorem redistApply_get? (d : String) (h p : ℚ) (j : Nat) :
    ∀ (l : List Agent) (i k : Nat),
      (redistApply d h p j l i).get? k =
        (l.get? k).map (fun a =>
          let a1 := if i + k = j then updateBalance a h else a
          if isSurvivor d a then updateBalance a1 p else a1) := by
  intro l
  induction l with
  | nil => intro i k; simp [redistApply]
  | cons a t ih =>
    intro i k
    cases k with
    | zero => simp [redistApply]
    | succ k =>
      simp only [redistApply, List.get?_cons_succ, ih (i + 1) k]
      have : i + 1 + k = i + (k + 1) := by omega
      rw [this]

theorem redistApply_length (d : String) (h p : ℚ) (j : Nat) :
    ∀ (l : List Agent) (i : Nat), (redistApply d h p j l i).length = l.length := by
  intro l
  induction l with
  | nil => intro i; rfl
  | cons a t ih => intro i; simp [redistApply, ih]

/-- Every recorded survivor position lies in the registry's index range. -/
theorem survivorIdxs_mem_range (d : String) :
    ∀ (l : List Agent) (i : Nat), ∀ x ∈ survivorIdxs d l i, i ≤ x ∧ x < i + l.length := by
  intro l
  induction l with
  | nil => intro i x hx; simp [survivorIdxs] at hx
  | cons a t ih =>
    intro i x hx
    simp only [survivorIdxs] at hx
    by_cases hs : isSurvivor d a
    · rw [if_pos hs] at hx
      rcases List.mem_cons.mp hx with hx | hx
      · subst hx; simp
      · have := ih (i + 1) x hx
        constructor <;> [omega; (simp only [List.length_cons]; omega)]
    · rw [if_neg hs] at hx
      have := ih (i + 1) x hx
      constructor <;> [omega; (simp only [List.length_cons]; omega)]

/-- A recorded survivor position indeed holds a survivor. -/
theorem survivorIdxs_survivor (d : String) :
    ∀ (l : List Agent) (i : Nat), ∀ x ∈ survivorIdxs d l i,
      ∃ a, l.get? (x - i) = some a ∧ isSurvivor d a = true := by
  intro l
  induction l with
  | nil => intro i x hx; simp [survivorIdxs] at hx
  | cons a t ih =>
    intro i x hx
    simp only [survivorIdxs] at hx
    by_cases hs : isSurvivor d a
    · rw [if_pos hs] at hx
      rcases List.mem_cons.mp hx with hx | hx
      · subst hx; exact ⟨a, by simp, hs⟩
      · obtain ⟨b, hb, hbs⟩ := ih (i + 1) x hx
        have hxr := (survivorIdxs_mem_range d t (i + 1) x hx).1
        refine ⟨b, ?_, hbs⟩
        have : x - i = (x - (i + 1)) + 1 := by omega
        rw [this, List.get?_cons_succ]
        exact hb
    · rw [if_neg hs] at hx
      obtain ⟨b, hb, hbs⟩ := ih (i + 1) x hx
      have hxr := (survivorIdxs_mem_range d t (i + 1) x hx).1
      refine ⟨b, ?_, hbs⟩
      have : x - i = (x - (i + 1)) + 1 := by omega
      rw [this, List.get?_cons_succ]
      exact hb

/-- The number of recorded survivor positions is the survivor count. -/
theorem survivorIdxs_length (d : String) :
    ∀ (l : List Agent) (i : Nat),
      (survivorIdxs d l i).length = l.countP (isSurvivor d) := by
  intro l
  induction l with
  | nil => intro i; rfl
  | cons a t ih =>
    intro i
    simp only [survivorIdxs, List.countP_cons]
    by_cases hs : isSurvivor d a
    · rw [if_pos hs]; simp [hs, ih (i + 1)]
    · rw [if_neg hs]; simp [hs, ih (i + 1)]

/-- Balance bookkeeping of the two passes: the total grows by one half-share
per survivor, plus the half balance when the chosen position falls in
range. -/
theorem redistApply_balanceSum (d : String) (h p : ℚ) (j : Nat) :
    ∀ (l : List Agent) (i : Nat),
      balanceSum (redistApply d h p j l i) =
        balanceSum l + p * (l.countP (isSurvivor d) : ℚ) +
          (if i ≤ j ∧ j < i + l.length then h else 0) := by
  intro l
  induction l with
  | nil =>
    intro i
    simp only [redistApply, balanceSum, List.map_nil, List.sum_nil, List.length_nil,
      List.countP_nil, Nat.cast_zero, mul_zero, add_zero, zero_add]
    rw [if_neg (by omega)]
  | cons a t ih =>
    intro i
    have hstep :
        (if isSurvivor d a then updateBalance (if i = j then updateBalance a h else a) p
          else (if i = j then updateBalance a h else a)).balance =
          a.balance + (if i = j then h else 0) + (if isSurvivor d a then p else 0) := by
      by_cases h1 : i = j <;> by_cases h2 : isSurvivor d a <;>
        simp [h1, h2, updateBalance_balance]
    simp only [redistApply, balanceSum, List.map_cons, List.sum_cons, List.countP_cons,
      List.length_cons] at *
    rw [hstep, ih (i + 1)]
    have hsplit :
        (if i = j then h else 0) + (if i + 1 ≤ j ∧ j < i + 1 + t.length then h else 0) =
          (if i ≤ j ∧ j < i + (t.length + 1) then h else 0) := by
      by_cases h1 : i = j
      · subst h1
        rw [if_pos rfl, if_neg (by omega), if_pos (by omega)]
        ring
      · rw [if_neg h1]
        by_cases h2 : i + 1 ≤ j ∧ j < i + 1 + t.length
        · rw [if_pos h2, if_pos (by omega)]
          ring
        · rw [if_neg h2, if_neg (by omega)]
          ring
    by_cases h2 : isSurvivor d a
    · simp only [h2, if_true]
      push_cast
      linarith [hsplit]
    · simp only [h2, if_false]
      push_cast
      linarith [hsplit]

/-- C4.  With a positive residual balance `b` and a non-empty survivor set of
size `k`, redistribution gives the survivor chosen by the random draw
`b/2 + b/(2k)`, gives every other survivor exactly `b/(2k)`, leaves every
non-survivor untouched, and increases the total balance by exactly `b`;
when `b ≤ 0` or no survivor exists nothing changes at all. -/
theorem redistributeBalance_spec (agents : List Agent) (d : String) (b : ℚ) (r : Nat)
    (hb : 0 < b) (hr : r < (survivorIdxs d agents 0).length) :
    balanceSum (redistributeBalance agents d b r) = balanceSum agents + b ∧
    (∀ a, agents.get? ((survivorIdxs d agents 0).getD r 0) = some a →
      ((redistributeBalance agents d b r).get?
          ((survivorIdxs d agents 0).getD r 0)).map Agent.balance =
        some (a.balance + (b / 2 + b / (2 * ((survivorIdxs d agents 0).length : ℚ))))) ∧
    (∀ i a, agents.get? i = some a → isSurvivor d a = true →
        i ≠ (survivorIdxs d agents 0).getD r 0 →
      ((redistributeBalance agents d b r).get? i).map Agent.balance =
        some (a.balance + b / (2 * ((survivorIdxs d agents 0).length : ℚ)))) ∧
    (∀ i a, agents.get? i = some a → isSurvivor d a = false →
      (redistributeBalance agents d b r).get? i = some a) ∧
    (∀ b' r', b' ≤ 0 → redistributeBalance agents d b' r' = agents) ∧
    (survivorIdxs d agents 0 = [] → ∀ b' r', redistributeBalance agents d b' r' = agents) := by
  have hne : (survivorIdxs d agents 0).isEmpty = false := by
    cases hidx : survivorIdxs d agents 0 with
    | nil => rw [hidx] at hr; simp at hr
    | cons x t => rfl
  have hkpos : 0 < (survivorIdxs d agents 0).length := lt_of_le_of_lt (Nat.zero_le r) hr
  have hkq : (0 : ℚ) < ((survivorIdxs d agents 0).length : ℚ) := by exact_mod_cast hkpos
  have hj : (survivorIdxs d agents 0).getD r 0 ∈ survivorIdxs d agents 0 := by
    rw [List.getD_eq_getElem?_getD, List.getElem?_eq_getElem hr, Option.getD_some]
    exact List.getElem_mem hr
  have hjrange := survivorIdxs_mem_range d agents 0 _ hj
  obtain ⟨aj, haj, hajs⟩ := survivorIdxs_survivor d agents 0 _ hj
  rw [Nat.sub_zero] at haj
  have hunfold : redistributeBalance agents d b r =
      redistApply d (b / 2) (b / 2 / ((survivorIdxs d agents 0).length : ℚ))
        ((survivorIdxs d agents 0).getD r 0) agents 0 := by
    rw [redistributeBalance, if_neg (not_le.mpr hb)]
    simp only [hne, Bool.false_eq_true, if_false]
    rw [Nat.mod_eq_of_lt hr]
  set j := (survivorIdxs d agents 0).getD r 0 with hjdef
  set k : ℚ := ((survivorIdxs d agents 0).length : ℚ) with hkdef
  have hhalf : b / 2 / k = b / (2 * k) := by
    rw [div_div]
  have hkne : ((survivorIdxs d agents 0).length : ℚ) ≠ 0 := ne_of_gt hkq
  refine ⟨?_, ?_, ?_, ?_, ?_, ?_⟩
  · rw [hunfold, redistApply_balanceSum]
    rw [if_pos ⟨Nat.zero_le _, by omega⟩, ← survivorIdxs_length d agents 0, ← hkdef]
    have : b / 2 / k * k = b / 2 := div_mul_cancel₀ (b / 2) (by rw [hkdef]; exact hkne)
    field_simp
    ring
  · intro a ha
    rw [hunfold, redistApply_get? d _ _ j agents 0 j, ha]
    have haeq : a = aj := by rw [ha] at haj; exact Option.some_inj.mp haj
    subst haeq
    simp only [Nat.zero_add, if_pos rfl, hajs, if_true, Option.map_some']
    rw [updateBalance_balance, updateBalance_balance, hhalf]
    congr 1
    ring
  · intro i a ha hs hij
    rw [hunfold, redistApply_get? d _ _ j agents 0 i, ha]
    simp only [Nat.zero_add, if_neg hij, hs, if_true, Option.map_some']
    rw [updateBalance_balance, hhalf]
  · intro i a ha hs
    have hij : i ≠ j := by
      intro h
      subst h
      rw [ha] at haj
      have heq : a = aj := Option.some_inj.mp haj
      rw [← heq] at hajs
      rw [hajs] at hs
      cases hs
    rw [hunfold, redistApply_get? d _ _ j agents 0 i, ha]
    simp [hij, hs]
  · intro b' r' hb'
    rw [redistributeBalance, if_pos hb']
  · intro hidx b' r'
    rw [redistributeBalance]
    split
    · rfl
    · simp only [hidx, List.isEmpty_nil, if_true]

/-- Concrete instantiation of `redistributeBalance_spec`: a dead actor with
residual balance 1.0 and 4 survivors; the chosen survivor ends at
1 + 0.625 and another survivor at 1 + 0.125, and exactly 1.0 is
distributed in total. -/
theorem redistributeBalance_spec_witness :
    balanceSum (redistributeBalance wRegistry "d" 1 2) = balanceSum wRegistry + 1 ∧
    ((redistributeBalance wRegistry "d" 1 2).get? 3).map Agent.balance = some 1.625 ∧
    ((redistributeBalance wRegistry "d" 1 2).get? 1).map Agent.balance = some 1.125 := by
  have hidx : survivorIdxs "d" wRegistry 0 = [1, 2, 3, 4] := rfl
  have hgetd : (survivorIdxs "d" wRegistry 0).getD 2 0 = 3 := rfl
  have hlen : (survivorIdxs "d" wRegistry 0).length = 4 := rfl
  have h := redistributeBalance_spec wRegistry "d" 1 2 (by norm_num)
    (by rw [hlen]; norm_num)
  refine ⟨h.1, ?_, ?_⟩
  · have hc := h.2.1 (wAlive "s3") (by rw [hgetd]; rfl)
    rw [hgetd, hlen] at hc
    rw [hc]
    norm_num [wAlive]
  · have hc := h.2.2.1 1 (wAlive "s1") rfl rfl (by rw [hgetd]; omega)
    rw [hlen] at hc
    rw [hc]
    norm_num [wAlive]

theorem markDead_balance (a : Agent) (t : Nat) : (markDead a t).balance = a.balance := rfl

theorem markDead_status (a : Agent) (t : Nat) : (markDead a t).status = a.status := rfl

theorem markDead_diedAt (a : Agent) (t : Nat) : (markDead a t).diedAt = some t := rfl

theorem markDead_id (a : Agent) (t : Nat) : (markDead a t).id = a.id := rfl

theorem statusOf_alive_iff (b : ℚ) : statusOf b = .alive ↔ SURVIVAL_THRESHOLD < b := by
  simp only [statusOf]
  split_ifs with h1 h2
  · simp only [SURVIVAL_THRESHOLD, CRITICAL_THRESHOLD] at *
    constructor
    · intro h; cases h
    · intro h; linarith
  · simp only [reduceCtorEq, false_iff, not_lt]
    exact h2
  · simp only [true_iff]
    exact lt_of_not_le h2

theorem redistributeBalance_length (l : List Agent) (d : String) (b : ℚ) (r : Nat) :
    (redistributeBalance l d b r).length = l.length := by
  rw [redistributeBalance]
  split
  · rfl
  dsimp only
  split
  · rfl
  exact redistApply_length d _ _ _ l 0

/-- Per-position description of `redistributeBalance`: each position is
either untouched, or held an alive survivor that is credited a positive
amount (and keeps its `id` and `diedAt`, with the status recomputed from the
new balance). -/
theorem redistributeBalance_get?_props (l : List Agent) (d : String) (b : ℚ) (r : Nat)
    (i : Nat) :
    (redistributeBalance l d b r).get? i = l.get? i ∨
    (∃ a a' x, l.get? i = some a ∧ (redistributeBalance l d b r).get? i = some a' ∧
      a.status = .alive ∧ 0 < x ∧ a'.balance = a.balance + x ∧
      a'.status = statusOf (a.balance + x) ∧ a'.diedAt = a.diedAt ∧ a'.id = a.id) := by
  rw [redistributeBalance]
  split
  · exact Or.inl rfl
  next hb =>
  dsimp only
  split
  · exact Or.inl rfl
  next hne =>
  have hbpos : 0 < b := lt_of_not_le hb
  have hlenpos : 0 < (survivorIdxs d l 0).length := by
    cases hidx : survivorIdxs d l 0 with
    | nil => rw [hidx] at hne; simp at hne
    | cons x xs => simp [hidx]
  have hkq : (0 : ℚ) < ((survivorIdxs d l 0).length : ℚ) := by exact_mod_cast hlenpos
  have hmod : r % (survivorIdxs d l 0).length < (survivorIdxs d l 0).length :=
    Nat.mod_lt _ hlenpos
  have hj : (survivorIdxs d l 0).getD (r % (survivorIdxs d l 0).length) 0 ∈
      survivorIdxs d l 0 := by
    rw [List.getD_eq_getElem?_getD, List.getElem?_eq_getElem hmod, Option.getD_some]
    exact List.getElem_mem hmod
  obtain ⟨aj, haj, hajs⟩ := survivorIdxs_survivor d l 0 _ hj
  rw [Nat.sub_zero] at haj
  rw [redistApply_get? d _ _ _ l 0 i]
  cases hgi : l.get? i with
  | none => exact Or.inl rfl
  | some a =>
    by_cases hs : isSurvivor d a = true
    · have hastatus : a.status = .alive := by
        simp only [isSurvivor, Bool.and_eq_true, beq_iff_eq] at hs
        exact hs.1
      by_cases hij :
          0 + i = (survivorIdxs d l 0).getD (r % (survivorIdxs d l 0).length) 0
      · refine Or.inr ⟨a,
          updateBalance (updateBalance a (b / 2)) (b / 2 / ((survivorIdxs d l 0).length : ℚ)),
          b / 2 + b / 2 / ((survivorIdxs d l 0).length : ℚ),
          rfl, ?_, hastatus, by positivity, ?_, ?_, ?_, ?_⟩
        · simp only [Option.map_some', hij, if_pos rfl, hs, if_true]
        · rw [updateBalance_balance, updateBalance_balance]; ring
        · rw [updateBalance_status, updateBalance_balance]; ring_nf
        · rw [updateBalance_diedAt, updateBalance_diedAt]
        · rw [updateBalance_id, updateBalance_id]
      · refine Or.inr ⟨a,
          updateBalance a (b / 2 / ((survivorIdxs d l 0).length : ℚ)),
          b / 2 / ((survivorIdxs d l 0).length : ℚ),
          rfl, ?_, hastatus, by positivity, ?_, ?_, ?_, ?_⟩
        · simp only [Option.map_some', if_neg hij, hs, if_true]
        · rw [updateBalance_balance]
        · rw [updateBalance_status]
        · rw [updateBalance_diedAt]
        · rw [updateBalance_id]
    · have hij :
          0 + i ≠ (survivorIdxs d l 0).getD (r % (survivorIdxs d l 0).length) 0 := by
        intro h
        rw [Nat.zero_add] at h
        subst h
        rw [hgi] at haj
        have heq : a = aj := Option.some_inj.mp haj
        rw [← heq] at hajs
        rw [hajs] at hs
        exact hs rfl
      apply Or.inl
      simp only [Option.map_some', if_neg hij, hs, Bool.false_eq_true, if_false]

/-- Redistribution preserves the status-consistency invariant and creates no
new dead-with-unset-finalize-time position. -/
theorem redistributeBalance_preserves (l : List Agent) (d : String) (b : ℚ) (r : Nat)
    (hc : StatusConsistent l) :
    StatusConsistent (redistributeBalance l d b r) ∧
    ∀ i, NotDeadUnsetAt l i → NotDeadUnsetAt (redistributeBalance l d b r) i := by
  constructor
  · intro a' ha'
    obtain ⟨i, hi⟩ := List.mem_iff_get?.mp ha'
    rcases redistributeBalance_get?_props l d b r i with h | ⟨a, a2, x, hga, hga2, _, _, hbal, hst, _, _⟩
    · rw [h] at hi
      exact hc a' (List.get?_mem hi)
    · rw [hga2] at hi
      obtain rfl := Option.some_inj.mp hi
      rw [hst, hbal]
  · intro i hnd a' ha'
    rcases redistributeBalance_get?_props l d b r i with h | ⟨a, a2, x, hga, hga2, has, hx, hbal, hst, hdied, _⟩
    · rw [h] at ha'
      exact hnd a' ha'
    · rw [hga2] at ha'
      obtain rfl := Option.some_inj.mp ha'
      intro ⟨hdead, _⟩
      have hcons := hc a (List.get?_mem hga)
      rw [has] at hcons
      have hgt : SURVIVAL_THRESHOLD < a.balance := (statusOf_alive_iff a.balance).mp hcons.symm
      have : statusOf (a.balance + x) = .alive := by
        rw [statusOf_alive_iff]
        linarith
      rw [hst, this] at hdead
      cases hdead

/-- A scan over a registry with no dead-and-unset agent changes nothing. -/
theorem processDeathsFrom_noop (t : Nat) :
    ∀ (fuel i : Nat) (l : List Agent) (rand : List Nat),
      (∀ k, NotDeadUnsetAt l k) → processDeathsFrom t fuel i l rand = l := by
  intro fuel
  induction fuel with
  | zero => intro i l rand h; rfl
  | succ fuel ih =>
    intro i l rand h
    simp only [processDeathsFrom]
    cases hgi : l.get? i with
    | none => rfl
    | some a =>
      dsimp only
      rw [if_neg (h i a hgi)]
      exact ih (i + 1) l rand h

/-- Scan invariant: starting from a consistent registry whose already-scanned
prefix has no dead-and-unset agent, the scan ends with a consistent registry
of the same length in which no agent is dead with an unset finalize time. -/
theorem processDeathsFrom_spec (t : Nat) :
    ∀ (fuel i : Nat) (l : List Agent) (rand : List Nat),
      StatusConsistent l →
      (∀ k, k < i → NotDeadUnsetAt l k) →
      l.length ≤ i + fuel →
      StatusConsistent (processDeathsFrom t fuel i l rand) ∧
      (∀ k, NotDeadUnsetAt (processDeathsFrom t fuel i l rand) k) ∧
      (processDeathsFrom t fuel i l rand).length = l.length := by
  intro fuel
  induction fuel with
  | zero =>
    intro i l rand hc hprev hlen
    simp only [processDeathsFrom]
    refine ⟨hc, ?_, by trivial⟩
    intro k a hget
    have hkl : k < l.length := by
      by_contra h
      rw [List.get?_eq_none.mpr (by omega)] at hget
      cases hget
    exact hprev k (by omega) a hget
  | succ fuel ih =>
    intro i l rand hc hprev hlen
    simp only [processDeathsFrom]
    cases hgi : l.get? i with
    | none =>
      dsimp only
      have hil : l.length ≤ i := List.get?_eq_none.mp hgi
      refine ⟨hc, ?_, rfl⟩
      intro k a hget
      have hkl : k < l.length := by
        by_contra h
        rw [List.get?_eq_none.mpr (by omega)] at hget
        cases hget
      exact hprev k (by omega) a hget
    | some a =>
      dsimp only
      by_cases hcond : a.status = .dead ∧ a.diedAt = none
      · rw [if_pos hcond]
        have hil : i < l.length := by
          by_contra h
          rw [List.get?_eq_none.mpr (by omega)] at hgi
          cases hgi
        have hc1 : StatusConsistent (l.set i (markDead a t)) := by
          intro b hb
          rcases List.mem_or_eq_of_mem_set hb with hb | rfl
          · exact hc b hb
          · rw [markDead_status, markDead_balance]
            exact hc a (List.get?_mem hgi)
        have hprev1 : ∀ k, k < i + 1 → NotDeadUnsetAt (l.set i (markDead a t)) k := by
          intro k hk b hget
          by_cases hki : k = i
          · subst hki
            rw [List.get?_eq_getElem?, List.getElem?_set_self hil] at hget
            obtain rfl := Option.some_inj.mp hget
            intro hcontra
            rw [markDead_diedAt] at hcontra
            cases hcontra.2
          · have hsame : (l.set i (markDead a t)).get? k = l.get? k := by
              rw [List.get?_eq_getElem?, List.get?_eq_getElem?,
                List.getElem?_set_ne (fun h => hki h.symm)]
            rw [hsame] at hget
            exact hprev k (by omega) b hget
        have hpres := redistributeBalance_preserves (l.set i (markDead a t)) a.id
          (markDead a t).balance (rand.headD 0) hc1
        have hlen2 :
            (redistributeBalance (l.set i (markDead a t)) a.id
              (markDead a t).balance (rand.headD 0)).length = l.length := by
          rw [redistributeBalance_length, List.length_set]
        have hres := ih (i + 1) _ rand.tail hpres.1
          (fun k hk => hpres.2 k (hprev1 k hk)) (by omega)
        exact ⟨hres.1, hres.2.1, by rw [hres.2.2, hlen2]⟩
      · rw [if_neg hcond]
        have hprev' : ∀ k, k < i + 1 → NotDeadUnsetAt l k := by
          intro k hk b hget
          by_cases hki : k = i
          · subst hki
            rw [hgi] at hget
            obtain rfl := Option.some_inj.mp hget
            exact hcond
          · exact hprev k (by omega) b hget
        exact ih (i + 1) l rand hc hprev' (by omega)

/-- C6.  Death finalization is idempotent: on a status-consistent registry,
running the per-cycle death scan a second time (with any further random draws
and clock) changes no actor state and performs no further redistribution; in
general a scan over a registry in which every dead actor already has its
finalize time set is the identity. -/
theorem processDeaths_idempotent (agents : List Agent) (r1 r2 : List Nat) (t1 t2 : Nat)
    (hc : StatusConsistent agents) :
    processDeaths (processDeaths agents r1 t1) r2 t2 = processDeaths agents r1 t1 ∧
    (∀ (l : List Agent) (rand : List Nat) (t : Nat),
      (∀ k, NotDeadUnsetAt l k) → processDeaths l rand t = l) := by
  have hspec := processDeathsFrom_spec t1 agents.length 0 agents r1 hc
    (fun k hk => absurd hk (Nat.not_lt_zero k)) (by omega)
  exact ⟨processDeathsFrom_noop t2 _ 0 _ r2 hspec.2.1,
    fun l rand t h => processDeathsFrom_noop t _ 0 l rand h⟩

theorem wRegistry2_consistent : StatusConsistent wRegistry2 := by
  intro a ha
  fin_cases ha <;>
    norm_num [wDead2, wAlive, statusOf, CRITICAL_THRESHOLD, SURVIVAL_THRESHOLD]

/-- Concrete instantiation of `processDeaths_idempotent` on a consistent
three-agent registry. -/
theorem processDeaths_idempotent_witness :
    processDeaths (processDeaths wRegistry2 [0] 5) [1] 6 =
      processDeaths wRegistry2 [0] 5 :=
  (processDeaths_idempotent wRegistry2 [0] [1] 5 6 wRegistry2_consistent).1

/-- Through a whole death scan, an agent whose status is dead keeps its exact
balance (`markDead` only sets `diedAt`, and redistribution never touches a
non-alive agent). -/
theorem processDeathsFrom_dead_balance (t : Nat) :
    ∀ (fuel i : Nat) (l : List Agent) (rand : List Nat) (idx : Nat) (a : Agent),
      l.get? idx = some a → a.status = .dead →
      ∃ a', (processDeathsFrom t fuel i l rand).get? idx = some a' ∧
        a'.balance = a.balance ∧ a'.status = .dead ∧ a'.id = a.id := by
  intro fuel
  induction fuel with
  | zero =>
    intro i l rand idx a hget hdead
    exact ⟨a, hget, rfl, hdead, rfl⟩
  | succ fuel ih =>
    intro i l rand idx a hget hdead
    simp only [processDeathsFrom]
    cases hgi : l.get? i with
    | none => exact ⟨a, hget, rfl, hdead, rfl⟩
    | some b =>
      dsimp only
      by_cases hcond : b.status = .dead ∧ b.diedAt = none
      · rw [if_pos hcond]
        have hil : i < l.length := by
          by_contra h
          rw [List.get?_eq_none.mpr (by omega)] at hgi
          cases hgi
        -- after the set, position idx holds an agent with the same balance,
        -- still dead
        have hset : ∃ a1, (l.set i (markDead b t)).get? idx = some a1 ∧
            a1.balance = a.balance ∧ a1.status = .dead ∧ a1.id = a.id := by
          by_cases hki : idx = i
          · subst hki
            rw [hget] at hgi
            obtain rfl := Option.some_inj.mp hgi
            exact ⟨markDead a t, by rw [List.get?_eq_getElem?, List.getElem?_set_self hil],
              markDead_balance a t, by rw [markDead_status]; exact hdead, markDead_id a t⟩
          · exact ⟨a, by rw [List.get?_eq_getElem?, List.getElem?_set_ne (fun h => hki h.symm),
              ← List.get?_eq_getElem?]; exact hget, rfl, hdead, rfl⟩
        obtain ⟨a1, hga1, hb1, hs1, hid1⟩ := hset
        -- redistribution leaves the dead position untouched
        have hred : (redistributeBalance (l.set i (markDead b t)) b.id
            (markDead b t).balance (rand.headD 0)).get? idx = some a1 := by
          rcases redistributeBalance_get?_props (l.set i (markDead b t)) b.id
            (markDead b t).balance (rand.headD 0) idx with h | ⟨c, c', x, hgc, hgc', hcs, _, _, _, _, _⟩
          · rw [h]; exact hga1
          · rw [hga1] at hgc
            obtain rfl := Option.some_inj.mp hgc
            rw [hs1] at hcs
            cases hcs
        obtain ⟨a', hga', hb', hs', hid'⟩ := ih (i + 1) _ rand.tail idx a1 hred hs1
        exact ⟨a', hga', by rw [hb', hb1], hs', by rw [hid', hid1]⟩
      · rw [if_neg hcond]
        exact ih (i + 1) l rand idx a hget hdead

/-- C10.  Redistribution leaves the dead actor's own recorded balance
unchanged: `markDead` does not touch the balance, `redistributeBalance`
leaves any dead-status agent's whole state untouched, and across a full
death scan a dead agent keeps its exact balance — the residual amount handed
to survivors also remains recorded on the dead actor's state. -/
theorem dead_agent_balance_frame :
    (∀ (a : Agent) (t : Nat), (markDead a t).balance = a.balance) ∧
    (∀ (l : List Agent) (d : String) (b : ℚ) (r i : Nat) (a : Agent),
      l.get? i = some a → a.status = .dead →
      (redistributeBalance l d b r).get? i = some a) ∧
    (∀ (l : List Agent) (rand : List Nat) (t i : Nat) (a : Agent),
      l.get? i = some a → a.status = .dead →
      ∃ a', (processDeaths l rand t).get? i = some a' ∧ a'.balance = a.balance) := by
  refine ⟨markDead_balance, ?_, ?_⟩
  · intro l d b r i a hget hdead
    rcases redistributeBalance_get?_props l d b r i with h | ⟨c, c', x, hgc, hgc', hcs, _, _, _, _, _⟩
    · rw [h]; exact hget
    · rw [hget] at hgc
      obtain rfl := Option.some_inj.mp hgc
      rw [hdead] at hcs
      cases hcs
  · intro l rand t i a hget hdead
    obtain ⟨a', hga', hb', _, _⟩ :=
      processDeathsFrom_dead_balance t l.length 0 l rand i a hget hdead
    exact ⟨a', hga', hb'⟩

/-- Concrete instantiation of `dead_agent_balance_frame`: the dead agent of
the three-agent registry keeps balance 0.005 through the scan that finalizes
it. -/
theorem dead_agent_balance_frame_witness :
    ∃ a', (processDeaths wRegistry2 [0] 5).get? 0 = some a' ∧
      a'.balance = wDead2.balance :=
  dead_agent_balance_frame.2.2 wRegistry2 [0] 5 0 wDead2 rfl rfl

/-- C5 (divergence evidence).  The breaker counts and trips as described —
a success resets `aiFailCount` to 0 and three consecutive failures set
`DEMO_MODE` — but tripping does not stop decision-path provider calls: after
the breaker trips, the very next `makeDecision` still invokes the provider,
because the provider guard is the startup constant `USE_KIMI` and never reads
`DEMO_MODE`; only `executeService`'s cosmetic narrative call is disabled. -/
theorem circuit_breaker_trips_but_decisions_still_call_provider :
    (∀ (g : AIGlobals) (o : String),
      (makeDecisionStep ⟨true, g.demoMode, g.aiFailCount⟩ (some o)).1.aiFailCount = 0) ∧
    (stepFail (stepFail (stepFail ⟨true, false, 0⟩))).demoMode = true ∧
    (stepFail (stepFail (stepFail ⟨true, false, 0⟩))).aiFailCount = 3 ∧
    (makeDecisionStep (stepFail (stepFail (stepFail ⟨true, false, 0⟩))) none).2 = true ∧
    (∀ (g : AIGlobals) (o : Option String), (makeDecisionStep g o).2 = g.useKimi) ∧
    executeServiceCallsProvider (stepFail (stepFail (stepFail ⟨true, false, 0⟩))) = false := by
  refine ⟨fun g o => rfl, rfl, rfl, rfl, ?_, rfl⟩
  intro g o
  cases hk : g.useKimi with
  | false => simp [makeDecisionStep, hk]
  | true => cases o <;> simp [makeDecisionStep, hk]

theorem wCartel_eligible : cartelEligible wCartelAgents "trading" = wCartelAgents := by
  norm_num [cartelEligible, wCartelAgents, wCartelAgent, List.filter]

theorem wCartel_negotiations :
    negotiate ((cartelEligible wCartelAgents "trading").take 6) wCartelResponses =
      [⟨"c1", true, 1.2⟩, ⟨"c2", true, 1.3⟩, ⟨"c3", true, 1.4⟩] := by
  rw [wCartel_eligible]
  norm_num [wCartelAgents, wCartelAgent, wCartelResponses, negotiate, clampMultiplier,
    jsOrDefault, min_def, max_def]

/-- C7 counterexample.  Three eligible same-category agents with recent
market price 0.08 all join with multipliers 1.2/1.3/1.4: the cartel forms
with exactly 3 members, but every member's fixed price is
0.08 × 1.3 × 1.3 = 0.1352 — not the claimed mean-times-market-price
0.08 × 1.3 = 0.104, because the engine multiplies the recent average by 1.3
before handing it to the negotiation. -/
theorem cartel_price_counterexample :
    (engineFormCartel wCartelAgents "trading" [0.08] wCartelResponses).1.length = 3 ∧
    ((engineFormCartel wCartelAgents "trading" [0.08] wCartelResponses).2.map
      Agent.basePrice) = [0.1352, 0.1352, 0.1352] ∧
    (0.1352 : ℚ) ≠ 0.08 * ((1.2 + 1.3 + 1.4) / 3) := by
  have hneg := wCartel_negotiations
  constructor
  · rw [engineFormCartel, formCartel]
    rw [if_neg (by rw [wCartel_eligible]; norm_num [wCartelAgents])]
    rw [hneg]
    norm_num [List.filter]
  constructor
  · rw [engineFormCartel, formCartel]
    rw [if_neg (by rw [wCartel_eligible]; norm_num [wCartelAgents])]
    rw [hneg]
    norm_num [List.filter, engineCartelPrice, wCartelAgents, wCartelAgent,
      updateStrategyPremium]
  · norm_num

/-- C7 (amended).  A cartel only forms with a quorum of at least 3 joiners
among the eligible same-category actors (otherwise the registry is
unchanged); each parsed multiplier is clamped to `[1.0, 2.0]`; the cartel's
fixed price equals the arithmetic mean of the joiners' multipliers times the
price the engine hands to the negotiation — which is 1.3 times the recent
average transaction price for the category (0.08 by default) — and every
joiner is switched to premium pricing at that fixed price. -/
theorem formCartel_amended_spec (agents : List Agent) (st : String) (recent : List ℚ)
    (rs : List CartelResponse)
    (hE : ¬(cartelEligible agents st).length < 3)
    (hJ : ¬((negotiate ((cartelEligible agents st).take 6) rs).filter
        (·.join)).length < 3) :
    (engineFormCartel agents st recent rs).1 =
      ((negotiate ((cartelEligible agents st).take 6) rs).filter (·.join)).map
        (·.agentId) ∧
    3 ≤ (engineFormCartel agents st recent rs).1.length ∧
    (∀ i a, agents.get? i = some a →
      (engineFormCartel agents st recent rs).2.get? i =
        some (if (((negotiate ((cartelEligible agents st).take 6) rs).filter
              (·.join)).map (·.agentId)).contains a.id
          then
            updateStrategyPremium a (engineCartelPrice recent *
              ((((negotiate ((cartelEligible agents st).take 6) rs).filter
                  (·.join)).map (·.proposedMultiplier)).sum /
                ((((negotiate ((cartelEligible agents st).take 6) rs).filter
                  (·.join)).length : ℚ))))
          else a)) ∧
    (∀ (a : Agent) (p : ℚ), (updateStrategyPremium a p).pricingModel = .premium ∧
      (updateStrategyPremium a p).basePrice = p) ∧
    (∀ v : ℚ, 1 ≤ clampMultiplier v ∧ clampMultiplier v ≤ 2) ∧
    engineCartelPrice recent =
      (if 0 < recent.length then recent.sum / (recent.length : ℚ) else 0.08) * 1.3 ∧
    (∀ (agents' : List Agent) (st' : String) (mp' : ℚ) (rs' : List CartelResponse),
      ((negotiate ((cartelEligible agents' st').take 6) rs').filter
        (·.join)).length < 3 →
      formCartel agents' st' mp' rs' = ([], agents')) := by
  have hunfold : engineFormCartel agents st recent rs =
      ((((negotiate ((cartelEligible agents st).take 6) rs).filter (·.join)).map
          (·.agentId)),
        agents.map fun a =>
          if ((((negotiate ((cartelEligible agents st).take 6) rs).filter
              (·.join)).map (·.agentId)).contains a.id)
          then
            updateStrategyPremium a (engineCartelPrice recent *
              ((((negotiate ((cartelEligible agents st).take 6) rs).filter
                  (·.join)).map (·.proposedMultiplier)).sum /
                ((((negotiate ((cartelEligible agents st).take 6) rs).filter
                  (·.join)).length : ℚ))))
          else a) := by
    rw [engineFormCartel, formCartel]
    rw [if_neg hE]
    dsimp only
    rw [if_neg hJ]
  refine ⟨by rw [hunfold], ?_, ?_, fun a p => ⟨rfl, rfl⟩, ?_, rfl, ?_⟩
  · rw [hunfold]
    simp only [List.length_map]
    omega
  · intro i a ha
    rw [hunfold]
    dsimp only
    rw [List.get?_eq_getElem?, List.getElem?_map, ← List.get?_eq_getElem?, ha,
      Option.map_some']
  · intro v
    constructor
    · exact le_max_left 1 (min 2 v)
    · exact max_le (by norm_num) (min_le_left 2 v)
  · intro agents' st' mp' rs' h
    rw [formCartel]
    split
    · rfl
    · dsimp only
      rw [if_pos h]

/-- Concrete instantiation of `formCartel_amended_spec` on the 70/75/80
scenario: the cartel has at least 3 members, and clamping keeps a multiplier
inside `[1, 2]`. -/
theorem formCartel_amended_spec_witness :
    3 ≤ (engineFormCartel wCartelAgents "trading" [0.08] wCartelResponses).1.length ∧
    (1 ≤ clampMultiplier 1.7 ∧ clampMultiplier 1.7 ≤ 2) := by
  have h := formCartel_amended_spec wCartelAgents "trading" [0.08] wCartelResponses
    (by rw [wCartel_eligible]; norm_num [wCartelAgents])
    (by rw [wCartel_negotiations]; norm_num [List.filter])
  exact ⟨h.2.1, h.2.2.2.2.1 1.7⟩

/-- C2 (amended).  When the x402 settlement of a payment attempt fails,
no balance mutation occurs — neither balance-update callback is invoked and
the running payment totals are unchanged — and the `X402Payment` record is
marked failed; but the `ServiceRequest` (WorkItem) is not marked failed: the
matching branch set it to `completed` before settling and never revisits
it. -/
theorem failed_settlement_no_mutation (sha256hex : String → String)
    (fromAgentId toAgentId : String) (amount : ℚ) (serviceType : String)
    (st : X402State) (tSign tSettle : Int) (nowMs : Nat) (nonce : String)
    (hfail : (verifyAndSettle sha256hex
      (createPaymentSignature sha256hex fromAgentId toAgentId amount tSign nonce)
      tSettle nowMs).1 = false) :
    (executePayment sha256hex fromAgentId toAgentId amount serviceType st
      tSign tSettle nowMs nonce).2.1 = st ∧
    (executePayment sha256hex fromAgentId toAgentId amount serviceType st
      tSign tSettle nowMs nonce).2.2 = [] ∧
    (executePayment sha256hex fromAgentId toAgentId amount serviceType st
      tSign tSettle nowMs nonce).1.status = .failed ∧
    (∀ (eng : EngineLedgerState) (request : ServiceRequest) (agent : Agent)
        (willScam : Bool) (txTime : Nat),
      (matchAccepted eng request agent willScam sha256hex tSign tSettle nowMs nonce
        txTime).2.2.1.status = .completed) := by
  refine ⟨?_, ?_, ?_, fun eng request agent willScam txTime => rfl⟩ <;>
    simp only [executePayment, hfail, Bool.false_eq_true, if_false]

/-- Concrete instantiation of `failed_settlement_no_mutation`: signing at
second 100 and settling at second 131 — one second past the 30-second
window — fails the settlement, invokes no callback, and leaves the request
`completed` rather than `failed`. -/
theorem failed_settlement_no_mutation_witness :
    (executePayment id "A" "B" 1 "research" ⟨0, 0⟩ 100 131 0 "n").2.1 = (⟨0, 0⟩ : X402State) ∧
    (executePayment id "A" "B" 1 "research" ⟨0, 0⟩ 100 131 0 "n").2.2 = [] ∧
    (executePayment id "A" "B" 1 "research" ⟨0, 0⟩ 100 131 0 "n").1.status = .failed := by
  have hva : jsParseInt (toString (100 : Int)) = some 100 := by decide
  have hvb : jsParseInt (toString ((100 : Int) + 30)) = some 130 := by decide
  have hfail : (verifyAndSettle id
      (createPaymentSignature id "A" "B" 1 100 "n") 131 0).1 = false := by
    simp only [verifyAndSettle, createPaymentSignature, hva, hvb]
    norm_num
  have h := failed_settlement_no_mutation id "A" "B" 1 "research" ⟨0, 0⟩ 100 131 0 "n" hfail
  exact ⟨h.1, h.2.1, h.2.2.1⟩

/-- C2 counterexample.  A concrete settlement that fails (settled one second
after the validity window) for which the WorkItem is nevertheless left
`completed`, not `failed`: the claim "the WorkItem being settled is marked
failed" is false on the code. -/
theorem failed_settlement_request_not_failed :
    ((matchAccepted ⟨[], [], ⟨0, 0⟩⟩
        ⟨"r1", "client-1", "", "research", 1, .in_progress⟩ (wAlive "agentX")
        false id 100 131 0 "n" 7).2.2.1.status = .completed) ∧
    ((matchAccepted ⟨[], [], ⟨0, 0⟩⟩
        ⟨"r1", "client-1", "", "research", 1, .in_progress⟩ (wAlive "agentX")
        false id 100 131 0 "n" 7).2.2.2.status = .failed) ∧
    ReqStatus.completed ≠ ReqStatus.failed := by
  have hva : jsParseInt (toString (100 : Int)) = some 100 := by decide
  have hvb : jsParseInt (toString ((100 : Int) + 30)) = some 130 := by decide
  have hfail : (verifyAndSettle id
      (createPaymentSignature id "A:B" "x" 1 100 "n") 131 0).1 = false := by
    simp only [verifyAndSettle, createPaymentSignature, hva, hvb]
    norm_num
  refine ⟨rfl, ?_, by decide⟩
  show (executePayment id "client-1" (wAlive "agentX").id 1 "research" ⟨0, 0⟩
    100 131 0 "n").1.status = .failed
  have hfail2 : (verifyAndSettle id
      (createPaymentSignature id "client-1" (wAlive "agentX").id 1 100 "n")
      131 0).1 = false := by
    simp only [verifyAndSettle, createPaymentSignature, hva, hvb]
    norm_num
  simp only [executePayment, hfail2, Bool.false_eq_true, if_false]

/-- C8 (amended).  Executing a scam credits the scamming actor's balance by
the full offered payment (booked as earnings), applies the fixed -20
reputation penalty clamped to `[0, 100]`, increments the completed-work
count by exactly one, and appends no per-agent service event; but the
engine's matching branch then pushes a ledger `Transaction` carrying the
full payment exactly as for an honest completion — the scam is distinguished
only by the `scam-detected` event. -/
theorem executeScam_spec (a : Agent) (p : ℚ) (hp : 0 < p) :
    (executeScam a p).balance = a.balance + p ∧
    (executeScam a p).earnings = a.earnings + p ∧
    (executeScam a p).reputation = max 0 (min 100 (a.reputation - 20)) ∧
    (executeScam a p).servicesCompleted = a.servicesCompleted + 1 ∧
    (executeScam a p).events = a.events ∧
    (0 ≤ (executeScam a p).reputation ∧ (executeScam a p).reputation ≤ 100) ∧
    (∀ (eng : EngineLedgerState) (request : ServiceRequest) (agent : Agent)
        (sha256hex : String → String) (tSign tSettle : Int) (nowMs : Nat)
        (nonce : String) (txTime : Nat),
      (matchAccepted eng request agent true sha256hex tSign tSettle nowMs nonce
          txTime).1.transactions =
        eng.transactions ++
          [{ from_ := request.clientId, to_ := agent.id, amount := request.payment,
             serviceType := request.serviceType, timestamp := txTime,
             x402TxHash := (executePayment sha256hex request.clientId agent.id
               request.payment request.serviceType eng.x402 tSign tSettle nowMs
               nonce).1.response.transactionHash }] ∧
      (matchAccepted eng request agent true sha256hex tSign tSettle nowMs nonce
          txTime).1.events = eng.events ++ ["scam-detected", "transaction"] ∧
      (matchAccepted eng request agent true sha256hex tSign tSettle nowMs nonce
          txTime).2.1 = executeScam agent request.payment) := by
  refine ⟨rfl, ?_, ?_, rfl, rfl, ⟨le_max_left 0 _, ?_⟩, ?_⟩
  · simp only [executeScam, incrementServicesCompleted, updateReputation, updateBalance,
      updateStatus, if_pos hp]
  · simp only [executeScam, incrementServicesCompleted, updateReputation, updateBalance,
      updateStatus]
    norm_num [sub_eq_add_neg]
  · exact max_le (by norm_num) (min_le_left 100 _)
  · intro eng request agent sha256hex tSign tSettle nowMs nonce txTime
    refine ⟨rfl, ?_, rfl⟩
    simp [matchAccepted]

/-- Concrete instantiation of `executeScam_spec`: scamming a payment of 1
takes the witness agent from balance 1 / reputation 50 / 0 completed
services to balance 2 / reputation 30 / 1 completed service. -/
theorem executeScam_spec_witness :
    (executeScam (wAlive "x") 1).balance = 2 ∧
    (executeScam (wAlive "x") 1).reputation = 30 ∧
    (executeScam (wAlive "x") 1).servicesCompleted = 1 := by
  have h := executeScam_spec (wAlive "x") 1 (by norm_num)
  refine ⟨?_, ?_, ?_⟩
  · rw [h.1]; norm_num [wAlive]
  · rw [h.2.2.1]; norm_num [wAlive, min_def, max_def]
  · rw [h.2.2.2.1]; norm_num [wAlive]

/-- C8 counterexample.  A concrete scam for which the engine does append a
ledger `Transaction` for the payment: the matching branch pushes the entry
unconditionally after (scam or honest) execution, so "appends no ledger
entry for that transaction" is false on the code. -/
theorem scam_appends_ledger_counterexample :
    (matchAccepted ⟨[], [], ⟨0, 0⟩⟩
        ⟨"r1", "client-1", "", "research", 1, .in_progress⟩ (wAlive "agentX")
        true id 100 100 0 "n" 7).1.transactions.length = 1 ∧
    (matchAccepted ⟨[], [], ⟨0, 0⟩⟩
        ⟨"r1", "client-1", "", "research", 1, .in_progress⟩ (wAlive "agentX")
        true id 100 100 0 "n" 7).1.events = ["scam-detected", "transaction"] := by
  constructor
  · simp [matchAccepted]
  · simp [matchAccepted]

end AgentSwarm
